import Mathlib

/-!
# Heimdall gateway — verification of the routing / middleware / proxy core

A shallow embedding, in Lean 4, of the request-routing, middleware-composition
and proxying pipeline of the Heimdall HTTP reverse-proxy gateway, together
with theorems settling the specification's claims about it.

Conventions of the embedding:
* Go's `http.Header` (`map[string][]string`) is modelled as a total function
  `String → List String`, where the empty list stands for an absent key
  (Go map access returns the zero value `nil` for an absent key, and adding
  zero values to a header leaves it absent, so the identification is faithful
  for every operation the gateway performs).  Header names are taken as
  already being in canonical MIME form, as Go's HTTP server guarantees for
  inbound requests.
* Go slices of middleware (`[]Middleware`) are modelled with an explicit
  heap of backing arrays (`Mem`), so that the aliasing behaviour of `append`
  — in-place extension while spare capacity remains, reallocation once it is
  exhausted — is visible; this is what makes `Chain.Clone`'s independence
  claim a real statement rather than a tautology of a pure model.
* `url.Parse` is an external collaborator; router construction is
  parametrised over it as `parse : String → Except String URL`.
* Stateful handlers become pure functions producing a `Response` or an
  explicit outcome value; context cancellation is the value of Go's
  `ctx.Err()` (`none`, canceled, or deadline-exceeded).
-/

namespace Heimdall

/-! ## Headers (`net/http.Header`) -/

/-- Go's `http.Header`: a map from header name to ordered value list.
The empty list represents an absent key. -/
def Header : Type := String → List String

/-- The empty header map (`make(http.Header)`). -/
def Header.empty : Header := fun _ => []

/-- Go `http.Header.Add`: appends `value` to the list stored under `key`. -/
def Header.add (h : Header) (key value : String) : Header :=
  fun name => if name = key then h key ++ [value] else h name

/-- Go `http.Header.Set`: replaces whatever is stored under `key` by the single
value `value`. -/
def Header.set (h : Header) (key value : String) : Header :=
  fun name => if name = key then [value] else h name

/-- Adding a whole value list one element at a time
(`for _, value := range values { h.Add(key, value) }`). -/
def Header.addAll (h : Header) (key : String) (values : List String) : Header :=
  values.foldl (fun acc v => acc.add key v) h

/-! ## URLs (`net/url.URL`, the components the gateway touches) -/

/-- The components of `url.URL` that the gateway reads or writes.
`fragment` is carried along to record that `proxyRequest` does *not* copy it
into the outgoing target URL. -/
structure URL where
  scheme : String
  host : String
  path : String
  rawQuery : String
  opaqueComp : String
  fragment : String
  deriving Repr, DecidableEq

/-! ## Routes -/

/-- Source `router.Route` (the fields the proxying pipeline reads; the resolved
middleware chain and composed handler live in the slice/heap model below and
are irrelevant to the routing-table and header claims). -/
structure Route where
  OriginalPath : String
  Target : URL
  Method : String
  Headers : String → List String
  AllowedHeaders : List String
  Middleware : List String

/-- The fixed gateway identifier `defaultUserAgent = "Heimdall/0.1"`. -/
def defaultUserAgent : String := "Heimdall/0.1"

/-- Source `Handler.processHeaders` / `ProxyHandler.processHeaders`:

```go
allowedHeaderValues := make(map[string][]string)
for _, allowedHeader := range route.AllowedHeaders {
    if values, exists := req.Header[allowedHeader]; exists {
        allowedHeaderValues[allowedHeader] = values
    }
}
req.Header = make(http.Header)
for header, values := range allowedHeaderValues {
    for _, value := range values { req.Header.Add(header, value) }
}
for key, values := range route.Headers {
    for _, value := range values { req.Header.Add(key, value) }
}
req.Header.Set("User-Agent", defaultUserAgent)
```

Go map iteration order is unspecified, but distinct names land in distinct
keys of the rebuilt header, and within one name the values keep their list
order, so the function below is the (unique) result of any iteration order.
`allowedHeaderValues` holds `reqHeader name` exactly for the names listed in
`route.AllowedHeaders` (an absent name contributes the empty list either
way). -/
def processHeaders (reqHeader : Header) (route : Route) : Header :=
  let allowedHeaderValues : Header := fun name =>
    if name ∈ route.AllowedHeaders then reqHeader name else []
  let rebuilt : Header := fun name =>
    (Header.empty name ++ allowedHeaderValues name) ++ route.Headers name
  rebuilt.set "User-Agent" defaultUserAgent

/-! ## Proxy error mapping (`proxy.ErrorHandler`) -/

/-- The possible non-nil results of Go's `ctx.Err()`. -/
inductive CtxErr where
  | canceled
  | deadlineExceeded
  deriving Repr, DecidableEq

/-- Go `errors.Is(err, context.Canceled)` for `err` the (unwrapped) result of
`ctx.Err()`: true exactly when the error is `context.Canceled` itself
(`nil` never matches). -/
def errorsIsCanceled (err : Option CtxErr) : Bool :=
  err = some CtxErr.canceled

/-- A synthesized HTTP response: status code, explicitly set headers, body. -/
structure Response where
  status : Nat
  headers : List (String × String)
  body : String
  deriving Repr, DecidableEq

/-- The 502 response of the proxy's error handler. -/
def gatewayErrorResponse : Response :=
  { status := 502, headers := [], body := "Gateway error" }

/-- The 503 response of the proxy's error handler. -/
def shuttingDownResponse : Response :=
  { status := 503, headers := [("Connection", "close")],
    body := "Gateway is shutting down" }

/-- Source `proxy.ErrorHandler` (identical in `ProxyHandler.ServeHTTP` and
`Handler.proxyRequest`):

```go
proxy.ErrorHandler = func(w http.ResponseWriter, r *http.Request, err error) {
    if !errors.Is(r.Context().Err(), context.Canceled) {
        w.WriteHeader(http.StatusBadGateway)
        w.Write([]byte("Gateway error"))
        return
    }
    w.Header().Set("Connection", "close")
    w.WriteHeader(http.StatusServiceUnavailable)
    w.Write([]byte("Gateway is shutting down"))
}
```

Its input is the value of the request context's `Err()` at the moment the
backend forwarding failed. -/
def errorHandler (ctxErr : Option CtxErr) : Response :=
  if ¬ errorsIsCanceled ctxErr then
    gatewayErrorResponse
  else
    shuttingDownResponse

/-- The terminal proxy step, from the backend's point of view: either the
backend produced a response (streamed back unchanged), or forwarding failed
and the error handler is invoked exactly once — there is no retry branch in
`proxy.ServeHTTP`'s use of `httputil.ReverseProxy`. -/
inductive BackendOutcome where
  | success (resp : Response)
  | failure (ctxErrAtFailure : Option CtxErr)

/-- The response the caller sees from the terminal proxy step as a function
of the single backend outcome. -/
def proxyOutcome : BackendOutcome → Response
  | BackendOutcome.success resp => resp
  | BackendOutcome.failure e => errorHandler e

/-! ## Middleware and handlers (`middleware` package)

Go's `http.Handler` is opaque to the chain; to observe execution order we
model a handler as a transformer of an event trace.  A middleware (interface
`Middleware` with single method `Wrap`, and its function adapter `Func`) is
then just a handler transformer. -/

/-- An `http.Handler`, modelled as a trace transformer: it receives the
events recorded so far and returns the extended trace. -/
def Handler : Type := List String → List String

/-- A middleware: `Wrap(next http.Handler) http.Handler`.  Both the
interface form and the `Func` adapter collapse to this function type. -/
def Middleware : Type := Handler → Handler

/-- Go `http.DefaultServeMux`, the fallback used by `Chain.Then` when the
final handler is nil; opaque, marked by a fixed trace event. -/
def defaultServeMux : Handler := fun trace => trace ++ ["http.DefaultServeMux"]

/-! ## Go slices of middleware, with their backing arrays

`Chain` holds a `middlewares []Middleware` slice mutated by `append`.  To
state `Clone`'s independence claim honestly we model the heap of backing
arrays: a slice is a (backing-array id, length) pair, `append` writes in
place while spare capacity remains and reallocates once it is exhausted.
A backing array is stored as the list of its initialised slots; its
allocated capacity is tracked separately in `caps`. -/

/-- The heap of middleware backing arrays. -/
structure Mem where
  arrays : Nat → List Middleware
  caps : Nat → Nat
  nextId : Nat

/-- A Go slice value: pointer to a backing array, plus length. -/
structure GoSlice where
  arrId : Nat
  len : Nat

/-- The visible elements of a slice: the first `len` slots of its backing
array. -/
def Mem.contents (s : Mem) (sl : GoSlice) : List Middleware :=
  (s.arrays sl.arrId).take sl.len

/-- Allocate a fresh backing array holding `elems`, with capacity `cap`,
returning the slice over it. -/
def Mem.alloc (s : Mem) (elems : List Middleware) (cap : Nat) :
    GoSlice × Mem :=
  (⟨s.nextId, elems.length⟩,
   { arrays := fun i => if i = s.nextId then elems else s.arrays i,
     caps := fun i => if i = s.nextId then cap else s.caps i,
     nextId := s.nextId + 1 })

/-- Overwrite the slots of `l` starting at position `i` with `xs`. -/
def writeAt (l : List α) (i : Nat) (xs : List α) : List α :=
  l.take i ++ xs ++ l.drop (i + xs.length)

/-- Capacity growth on reallocation (the exact Go growth schedule is an
implementation detail; any capacity at least `needed` preserves the
observable semantics of this API). -/
def growCap (oldCap needed : Nat) : Nat := max (2 * oldCap) needed

/-- Go `append(sl, xs...)`: extend in place when the backing array has spare
capacity for all of `xs` (visible, through the shared backing array, to any
other slice long enough to reach the written slots), otherwise copy the
visible elements into a freshly allocated, larger array. -/
def Mem.append (s : Mem) (sl : GoSlice) (xs : List Middleware) :
    GoSlice × Mem :=
  if sl.len + xs.length ≤ s.caps sl.arrId then
    (⟨sl.arrId, sl.len + xs.length⟩,
     { s with arrays := fun i =>
         if i = sl.arrId then writeAt (s.arrays sl.arrId) sl.len xs
         else s.arrays i })
  else
    s.alloc (s.contents sl ++ xs) (growCap (s.caps sl.arrId) (sl.len + xs.length))

/-! ## The middleware chain (`middleware.Chain`)

A Go `*Chain` is a mutable cell holding a slice; each operation takes the
current heap and the chain's slice and returns the updated pair. -/

/-- Source `NewChain`: `&Chain{middlewares: []Middleware{}}` — a fresh
empty slice (length 0, capacity 0). -/
def NewChain (s : Mem) : GoSlice × Mem := s.alloc [] 0

/-- Source `Chain.Add`: `c.middlewares = append(c.middlewares, m)`. -/
def Chain.Add (s : Mem) (c : GoSlice) (m : Middleware) : GoSlice × Mem :=
  s.append c [m]

/-- Source `Chain.Clone`:

```go
clone := NewChain()
clone.middlewares = append(clone.middlewares, c.middlewares...)
return clone
```
-/
def Chain.Clone (s : Mem) (c : GoSlice) : GoSlice × Mem :=
  let fresh := NewChain s
  Mem.append fresh.2 fresh.1 (Mem.contents fresh.2 c)

/-- Source `Chain.Then`:

```go
if final == nil { final = http.DefaultServeMux }
handler := final
for i := len(c.middlewares) - 1; i >= 0; i-- {
    handler = c.middlewares[i].Wrap(handler)
}
return handler
```

The loop walks the middleware list in reverse order, wrapping the
accumulated handler, which is a left fold over the reversed list. -/
def Chain.Then (s : Mem) (c : GoSlice) (final : Option Handler) : Handler :=
  let fin : Handler :=
    match final with
    | none => defaultServeMux
    | some f => f
  (Mem.contents s c).reverse.foldl (fun handler m => m handler) fin

/-- Source `Chain.Wrap`: a chain is itself a middleware, wrapping via
`Then`. -/
def Chain.Wrap (s : Mem) (c : GoSlice) (final : Handler) : Handler :=
  Chain.Then s c (some final)

/-- A middleware that records `name-before`, delegates, then records
`name-after` — the literal order-recording scenario of the specification. -/
def traceMiddleware (name : String) : Middleware :=
  fun next trace => next (trace ++ [name ++ "-before"]) ++ [name ++ "-after"]

/-- A final handler that records the event `final`. -/
def traceFinal : Handler := fun trace => trace ++ ["final"]

/-- The initial, empty heap. -/
def Mem.initial : Mem := { arrays := fun _ => [], caps := fun _ => 0, nextId := 0 }

/-- Well-formedness of a slice against a heap: its backing array was
allocated, and its visible range is initialised. -/
structure Mem.WF (s : Mem) (sl : GoSlice) : Prop where
  arrLt : sl.arrId < s.nextId
  lenLe : sl.len ≤ (s.arrays sl.arrId).length

/-! ## Router construction (`NewRouterWithRegistry` / `router.NewWithRegistry`) -/

/-- Source `config.EndpointConfig` (the fields router construction reads). -/
structure EndpointConfig where
  Path : String
  Target : String
  Method : String
  Headers : String → List String
  AllowedHeaders : List String
  Middlewares : List String

/-- The `Route` literal built for an endpoint whose target parsed to
`targetURL`:

```go
&Route{ OriginalPath: endpoint.Path, Target: targetURL, Method: endpoint.Method,
        Headers: endpoint.Headers, AllowedHeaders: endpoint.AllowedHeaders,
        Middleware: endpoint.Middlewares, Middlewares: NewMiddlewareChain() }
```
-/
def mkRoute (endpoint : EndpointConfig) (targetURL : URL) : Route :=
  { OriginalPath := endpoint.Path
    Target := targetURL
    Method := endpoint.Method
    Headers := endpoint.Headers
    AllowedHeaders := endpoint.AllowedHeaders
    Middleware := endpoint.Middlewares }

/-- The two-level table `map[string]map[string]*Route`, path first, then
method; `none` at the first level is an absent path key. -/
def RoutesMap : Type := String → Option (String → Option Route)

/-- The empty table (`make(map[string]map[string]*Route)`). -/
def RoutesMap.empty : RoutesMap := fun _ => none

/-- One loop iteration of router construction after a successful parse:

```go
if _, ok := routes[endpoint.Path]; !ok { routes[endpoint.Path] = make(map[string]*Route) }
routes[endpoint.Path][endpoint.Method] = &Route{ ... }
```
-/
def RoutesMap.insert (routes : RoutesMap) (e : EndpointConfig) (t : URL) :
    RoutesMap :=
  let inner : String → Option Route :=
    match routes e.Path with
    | some methodRoutes => methodRoutes
    | none => fun _ => none
  fun p =>
    if p = e.Path then
      some (fun m => if m = e.Method then some (mkRoute e t) else inner m)
    else routes p

/-- Two-level lookup in a table (shared by `Router.GetRoute` below). -/
def RoutesMap.lookup (routes : RoutesMap) (path method : String) :
    Option Route :=
  match routes path with
  | none => none
  | some methodRoutes => methodRoutes method

/-- The construction loop of `NewRouterWithRegistry`: walk the endpoint list
in order; the first target that fails to parse aborts the whole construction
with that error, otherwise insert the endpoint's route and continue. -/
def buildRoutes (parse : String → Except String URL) :
    List EndpointConfig → RoutesMap → Except String RoutesMap
  | [], routes => Except.ok routes
  | e :: rest, routes =>
    match parse e.Target with
    | Except.error err => Except.error err
    | Except.ok targetURL => buildRoutes parse rest (routes.insert e targetURL)

/-- Source `Router` (the middleware registry field only feeds the resolution
pass, which mutates each route's chain in place and never touches the table
keys or the fields modelled here). -/
structure Router where
  Routes : RoutesMap

/-- Source `NewRouterWithRegistry` / `router.NewWithRegistry`, parametrised
over the external `url.Parse`.  The second loop of the source (middleware
resolution via `registry.GetMultiple`, logging a warning for missing names)
only mutates each route's chain and cannot fail, so the construction result
is the table built by the first loop. -/
def NewRouterWithRegistry (parse : String → Except String URL)
    (endpoints : List EndpointConfig) : Except String Router :=
  (buildRoutes parse endpoints RoutesMap.empty).map
    (fun routes => { Routes := routes })

/-- Source `Router.GetRoute`:

```go
methodRoutes, ok := r.Routes[path]
if !ok { return nil, false }
route, ok := methodRoutes[method]
if !ok { return nil, false }
return route, true
```
-/
def Router.GetRoute (r : Router) (path method : String) : Option Route :=
  match r.Routes path with
  | none => none
  | some methodRoutes => methodRoutes method

/-- The last endpoint of the list whose (path, method) pair equals the given
one — the definition that wins the table slot under Go map overwrite. -/
def lastMatch (endpoints : List EndpointConfig) (path method : String) :
    Option EndpointConfig :=
  endpoints.foldl
    (fun acc e => if e.Path = path ∧ e.Method = method then some e else acc)
    none

/-! ## The proxy entry point (`Handler.ServeHTTP` / `ProxyHandler.ServeHTTP`) -/

/-- An inbound request, as far as the gateway reads it: whether its
context's `Done` channel is already closed at entry, the `Host`, the method,
the URL and the headers. -/
structure Request where
  ctxDone : Bool
  host : String
  method : String
  url : URL
  headers : Header

/-- The outcome of the entry point, before the terminal proxy step: an
immediate pre-dispatch close, a 404, or dispatch of the matched route to the
middleware/proxy pipeline. -/
inductive ServeResult where
  | earlyClose (resp : Response)
  | notFound (resp : Response)
  | dispatched (route : Route)

/-- Source `ServeHTTP` (identical guard in both proxy entry points):

```go
select {
case <-req.Context().Done():
    w.Header().Set("Connection", "close")
    w.WriteHeader(http.StatusServiceUnavailable)
    return
default:
}
route, ok := p.router.GetRoute(req.URL.Path, req.Method)
if !ok { http.Error(w, "Route Not Found", http.StatusNotFound); return }
... // dispatch to route.Handler or proxyRequest
```

`http.Error` appends a newline to the body. -/
def ServeHTTP (router : Router) (req : Request) : ServeResult :=
  if req.ctxDone then
    ServeResult.earlyClose
      { status := 503, headers := [("Connection", "close")], body := "" }
  else
    match router.GetRoute req.url.path req.method with
    | none =>
      ServeResult.notFound
        { status := 404, headers := [], body := "Route Not Found\n" }
    | some route => ServeResult.dispatched route

/-! ## The outgoing request (`proxyRequest` director) -/

/-- Go `httputil.singleJoiningSlash`. -/
def singleJoiningSlash (a b : String) : String :=
  let aslash := a.endsWith "/"
  let bslash := b.startsWith "/"
  if aslash ∧ bslash then a ++ b.drop 1
  else if ¬ aslash ∧ ¬ bslash then a ++ "/" ++ b
  else a ++ b

/-- Go `httputil.rewriteRequestURL` — the Director installed by
`NewSingleHostReverseProxy(target)`:

```go
targetQuery := target.RawQuery
req.URL.Scheme = target.Scheme
req.URL.Host = target.Host
req.URL.Path, req.URL.RawPath = joinURLPath(target, req.URL)
if targetQuery == "" || req.URL.RawQuery == "" {
    req.URL.RawQuery = targetQuery + req.URL.RawQuery
} else {
    req.URL.RawQuery = targetQuery + "&" + req.URL.RawQuery
}
```

(`joinURLPath` reduces to `singleJoiningSlash` on the paths when neither URL
carries a `RawPath` override, the case for the URLs the gateway builds;
the joined path is in any case overwritten by the gateway's own director
below.)  Note the inbound query is merged in, and `Opaque` is untouched. -/
def rewriteRequestURL (u : URL) (target : URL) : URL :=
  let targetQuery := target.rawQuery
  { u with
    scheme := target.scheme
    host := target.host
    path := singleJoiningSlash target.path u.path
    rawQuery :=
      if targetQuery = "" ∨ u.rawQuery = "" then targetQuery ++ u.rawQuery
      else targetQuery ++ "&" ++ u.rawQuery }

/-- The `targetURL` literal built at the top of `proxyRequest`:

```go
targetURL := &url.URL{ Scheme: route.Target.Scheme, Host: route.Target.Host,
                       Path: route.Target.Path, RawQuery: route.Target.RawQuery,
                       Opaque: route.Target.Opaque }
```

(the target's fragment, if any, is not copied). -/
def targetURLOf (route : Route) : URL :=
  { scheme := route.Target.scheme
    host := route.Target.host
    path := route.Target.path
    rawQuery := route.Target.rawQuery
    opaqueComp := route.Target.opaqueComp
    fragment := "" }

/-- The gateway's Director, as installed in `proxyRequest` /
`ProxyHandler.ServeHTTP`:

```go
originalDirector := proxy.Director
proxy.Director = func(req *http.Request) {
    originalDirector(req)
    req.Host = targetURL.Host
    req.URL.Path = targetURL.Path
    p.processHeaders(req, route)
}
```
-/
def director (route : Route) (req : Request) : Request :=
  let targetURL := targetURLOf route
  let afterOriginal := { req with url := rewriteRequestURL req.url targetURL }
  let afterHost := { afterOriginal with host := targetURL.host }
  let afterPath :=
    { afterHost with url := { afterHost.url with path := targetURL.path } }
  { afterPath with headers := processHeaders afterPath.headers route }

/-! ## Concrete scenarios used by witnesses and counterexamples -/

/-- The specification's header-rewrite scenario: allow list `["X-Fwd"]`,
static headers `X-Static: v1, v2`. -/
def specRoute : Route :=
  { OriginalPath := "/test"
    Target := ⟨"http", "backend", "", "", "", ""⟩
    Method := "GET"
    Headers := fun n => if n = "X-Static" then ["v1", "v2"] else []
    AllowedHeaders := ["X-Fwd"]
    Middleware := [] }

/-- The specification's inbound headers: `X-Fwd: keep`, `X-Drop: gone`. -/
def specInbound : Header :=
  fun n => if n = "X-Fwd" then ["keep"] else if n = "X-Drop" then ["gone"] else []

/-- A route whose static headers and allow list share the name `X-Both`. -/
def overlapRoute : Route :=
  { OriginalPath := "/test"
    Target := ⟨"http", "backend", "", "", "", ""⟩
    Method := "GET"
    Headers := fun n => if n = "X-Both" then ["static-v"] else []
    AllowedHeaders := ["X-Both"]
    Middleware := [] }

/-- Inbound headers carrying `X-Both: inbound-v`. -/
def overlapInbound : Header :=
  fun n => if n = "X-Both" then ["inbound-v"] else []

/-- A route whose target carries its own raw query `tq=1`. -/
def queryRoute : Route :=
  { OriginalPath := "/inbound"
    Target := ⟨"http", "backend:8080", "/api", "tq=1", "", ""⟩
    Method := "GET"
    Headers := fun _ => []
    AllowedHeaders := []
    Middleware := [] }

/-- An inbound request for `/inbound?q=2`. -/
def queryRequest : Request :=
  { ctxDone := false
    host := "heimdall.local"
    method := "GET"
    url := ⟨"", "", "/inbound", "q=2", "", ""⟩
    headers := Header.empty }

/-- A router with no routes at all. -/
def emptyRouter : Router := { Routes := RoutesMap.empty }

/-- A request whose context is already canceled at entry. -/
def canceledRequest : Request :=
  { ctxDone := true
    host := "heimdall.local"
    method := "GET"
    url := ⟨"", "", "/x", "", "", ""⟩
    headers := Header.empty }

/-! ## Claim theorems -/

/-- C1: after the header-rewrite step, the outgoing headers are exactly the
inbound headers whose names are in the route's allow list (with all their
values), plus the route's static headers (appended after them), after which
`User-Agent` is set to the fixed identifier `"Heimdall/0.1"`; an inbound
name outside the allow list contributes nothing, so outside the static map
(and `User-Agent`) it is absent from the outgoing request. -/
theorem headers_rewrite_exact (reqHeader : Header) (route : Route)
    (name : String) :
    (name ≠ "User-Agent" →
      processHeaders reqHeader route name =
        (if name ∈ route.AllowedHeaders then reqHeader name else [])
          ++ route.Headers name)
    ∧ processHeaders reqHeader route "User-Agent" = [defaultUserAgent]
    ∧ (name ∉ route.AllowedHeaders → name ≠ "User-Agent" →
      processHeaders reqHeader route name = route.Headers name) := by
  refine ⟨fun h => ?_, ?_, fun hmem h => ?_⟩
  · simp [processHeaders, Header.set, Header.empty, h]
  · simp [processHeaders, Header.set]
  · simp [processHeaders, Header.set, Header.empty, h, hmem]

/-- C1 witness: the specification's literal scenario — `X-Fwd: keep`
survives, `X-Static` gets `v1, v2`, `X-Drop` is dropped, `User-Agent` is the
gateway identifier. -/
theorem headers_rewrite_exact_witness :
    processHeaders specInbound specRoute "X-Fwd" = ["keep"]
    ∧ processHeaders specInbound specRoute "X-Static" = ["v1", "v2"]
    ∧ processHeaders specInbound specRoute "X-Drop" = []
    ∧ processHeaders specInbound specRoute "User-Agent" = [defaultUserAgent] := by
  refine ⟨?_, ?_, ?_, ?_⟩
  · have h := (headers_rewrite_exact specInbound specRoute "X-Fwd").1 (by decide)
    rw [h]; decide
  · have h :=
      (headers_rewrite_exact specInbound specRoute "X-Static").1 (by decide)
    rw [h]; decide
  · have h :=
      (headers_rewrite_exact specInbound specRoute "X-Drop").2.2 (by decide)
        (by decide)
    rw [h]; decide
  · exact (headers_rewrite_exact specInbound specRoute "X-Drop").2.1

/-- C2: when backend forwarding fails, the terminal proxy step maps the
failure by the request context's error alone — not canceled gives 502
`"Gateway error"`, canceled gives 503 with `Connection: close` and
`"Gateway is shutting down"`; these are its only two error responses, and
the step consults the single backend outcome exactly once (no retry
branch exists in the source). -/
theorem proxy_error_mapping (e : Option CtxErr) :
    (e ≠ some CtxErr.canceled → errorHandler e = gatewayErrorResponse)
    ∧ (e = some CtxErr.canceled → errorHandler e = shuttingDownResponse)
    ∧ (errorHandler e = gatewayErrorResponse
        ∨ errorHandler e = shuttingDownResponse)
    ∧ (∀ resp, proxyOutcome (BackendOutcome.success resp) = resp)
    ∧ proxyOutcome (BackendOutcome.failure e) = errorHandler e
    ∧ gatewayErrorResponse.status = 502
    ∧ gatewayErrorResponse.body = "Gateway error"
    ∧ shuttingDownResponse.status = 503
    ∧ shuttingDownResponse.headers = [("Connection", "close")]
    ∧ shuttingDownResponse.body = "Gateway is shutting down" := by
  refine ⟨fun h => ?_, fun h => ?_, ?_, fun resp => rfl, rfl, rfl, rfl, rfl,
    rfl, rfl⟩
  · simp [errorHandler, errorsIsCanceled, h]
  · simp [errorHandler, errorsIsCanceled, h]
  · by_cases h : e = some CtxErr.canceled
    · exact Or.inr (by simp [errorHandler, errorsIsCanceled, h])
    · exact Or.inl (by simp [errorHandler, errorsIsCanceled, h])

/-- C2 witness: a nil context error maps to the 502 response, a canceled
context to the 503 shutting-down response. -/
theorem proxy_error_mapping_witness :
    errorHandler none = gatewayErrorResponse
    ∧ errorHandler (some CtxErr.canceled) = shuttingDownResponse :=
  ⟨(proxy_error_mapping none).1 (by decide),
   (proxy_error_mapping (some CtxErr.canceled)).2.1 rfl⟩

/-- C3 counterexample: the claim says a static route header *replaces* a
same-named header surviving the allow-list filter; on the code, with
`X-Both` both allowed (inbound value `inbound-v`) and statically mapped to
`static-v`, the outgoing request carries `["inbound-v", "static-v"]`, not
only the static value. -/
theorem static_headers_override_counterexample :
    processHeaders overlapInbound overlapRoute "X-Both"
      = ["inbound-v", "static-v"]
    ∧ processHeaders overlapInbound overlapRoute "X-Both" ≠ ["static-v"] := by
  constructor <;> decide

/-- C3 amended: each static route header is unconditionally injected into
the outgoing request, but it is *appended after* (not replacing) any
same-named values that survived the allow-list filter, so for a name in
both the allow list and the static map the outgoing request carries the
surviving inbound values followed by the static values (with `User-Agent`
still finally overridden by the gateway identifier). -/
theorem static_headers_appended (reqHeader : Header) (route : Route)
    (name : String) (hua : name ≠ "User-Agent")
    (hmem : name ∈ route.AllowedHeaders) :
    processHeaders reqHeader route name = reqHeader name ++ route.Headers name := by
  simp [processHeaders, Header.set, Header.empty, hua, hmem]

/-- C3 amended, witness: the overlap scenario again, through the amended
theorem. -/
theorem static_headers_appended_witness :
    processHeaders overlapInbound overlapRoute "X-Both"
      = overlapInbound "X-Both" ++ overlapRoute.Headers "X-Both" :=
  static_headers_appended overlapInbound overlapRoute "X-Both" (by decide)
    (by decide)

/-- C6: a request whose context is already canceled at entry is answered
with 503 and `Connection: close` (and empty body) before any route lookup:
the outcome carries no route, and it is the same whatever routing table the
gateway holds, so no middleware runs and no backend is contacted. -/
theorem precanceled_request_early_503 (router : Router) (req : Request)
    (h : req.ctxDone = true) :
    ServeHTTP router req =
      ServeResult.earlyClose
        { status := 503, headers := [("Connection", "close")], body := "" }
    ∧ ∀ router2 : Router, ServeHTTP router2 req = ServeHTTP router req := by
  constructor
  · simp [ServeHTTP, h]
  · intro router2; simp [ServeHTTP, h]

/-- C6 witness: the canceled request on the empty router. -/
theorem precanceled_request_early_503_witness :
    ServeHTTP emptyRouter canceledRequest =
      ServeResult.earlyClose
        { status := 503, headers := [("Connection", "close")], body := "" } :=
  (precanceled_request_early_503 emptyRouter canceledRequest rfl).1

/-- C9 counterexample: the claim says the outgoing URL's raw query is the
target's, copied verbatim, and no portion of the inbound query is
forwarded; on the code, forwarding `/inbound?q=2` through a route targeting
`http://backend:8080/api?tq=1` produces outgoing raw query `tq=1&q=2` —
the inbound query is merged in by the reverse proxy's director. -/
theorem outgoing_query_merged_counterexample :
    (director queryRoute queryRequest).url.rawQuery = "tq=1&q=2"
    ∧ (director queryRoute queryRequest).url.rawQuery
        ≠ queryRoute.Target.rawQuery := by
  constructor <;> decide

/-- C9 amended: the outgoing request's URL takes its scheme, host and path
from the route's target verbatim — in particular the outgoing path is
exactly the configured target path, the inbound path being discarded, and
`req.Host` is the target host — but its raw query is the target's raw query
*merged with* the inbound query (joined with `&` when both are non-empty),
and its opaque component is the inbound one, untouched, not the target's. -/
theorem outgoing_url_from_target (route : Route) (req : Request) :
    (director route req).url.scheme = route.Target.scheme
    ∧ (director route req).url.host = route.Target.host
    ∧ (director route req).host = route.Target.host
    ∧ (director route req).url.path = route.Target.path
    ∧ (director route req).url.rawQuery =
        (if route.Target.rawQuery = "" ∨ req.url.rawQuery = ""
         then route.Target.rawQuery ++ req.url.rawQuery
         else route.Target.rawQuery ++ "&" ++ req.url.rawQuery)
    ∧ (director route req).url.opaqueComp = req.url.opaqueComp := by
  refine ⟨rfl, rfl, rfl, rfl, rfl, rfl⟩

/-! ## Routing-table lemmas -/

/-- Inserting an endpoint's route changes the two-level lookup exactly at
its (path, method) slot. -/
theorem RoutesMap.lookup_insert (routes : RoutesMap) (e : EndpointConfig)
    (t : URL) (p m : String) :
    (routes.insert e t).lookup p m =
      if p = e.Path ∧ m = e.Method then some (mkRoute e t)
      else routes.lookup p m := by
  by_cases hp : p = e.Path
  · subst hp
    by_cases hm : m = e.Method
    · subst hm
      simp [RoutesMap.insert, RoutesMap.lookup]
    · rw [if_neg (fun h => hm h.2)]
      cases hroutes : routes e.Path with
      | none => simp [RoutesMap.insert, RoutesMap.lookup, hm, hroutes]
      | some mr => simp [RoutesMap.insert, RoutesMap.lookup, hm, hroutes]
  · rw [if_neg (fun h => hp h.1)]
    simp [RoutesMap.insert, RoutesMap.lookup, hp]

/-- Folding the last-match accumulator from an arbitrary seed. -/
theorem lastMatch_foldl (endpoints : List EndpointConfig) (path method : String)
    (acc : Option EndpointConfig) :
    endpoints.foldl
        (fun acc e =>
          if e.Path = path ∧ e.Method = method then some e else acc) acc
      = match lastMatch endpoints path method with
        | some e => some e
        | none => acc := by
  induction endpoints generalizing acc with
  | nil => simp [lastMatch]
  | cons e rest ih =>
    rw [List.foldl_cons, ih]
    conv_rhs =>
      rw [show lastMatch (e :: rest) path method
          = List.foldl
              (fun acc e =>
                if e.Path = path ∧ e.Method = method then some e else acc)
              (if e.Path = path ∧ e.Method = method then some e else none)
              rest from rfl]
    rw [ih]
    cases lastMatch rest path method with
    | some x => rfl
    | none =>
      by_cases hP : e.Path = path ∧ e.Method = method <;> simp [hP]

/-- Peeling one endpoint off the front of `lastMatch`. -/
theorem lastMatch_cons (e : EndpointConfig) (rest : List EndpointConfig)
    (path method : String) :
    lastMatch (e :: rest) path method
      = match lastMatch rest path method with
        | some x => some x
        | none =>
          if e.Path = path ∧ e.Method = method then some e else none := by
  show List.foldl
      (fun acc e => if e.Path = path ∧ e.Method = method then some e else acc)
      (if e.Path = path ∧ e.Method = method then some e else none) rest = _
  exact lastMatch_foldl rest path method _

/-- No endpoint matches (path, method) exactly iff `lastMatch` finds none. -/
theorem lastMatch_eq_none_iff (endpoints : List EndpointConfig)
    (path method : String) :
    lastMatch endpoints path method = none
      ↔ ∀ e ∈ endpoints, ¬(e.Path = path ∧ e.Method = method) := by
  induction endpoints with
  | nil => simp [lastMatch]
  | cons e rest ih =>
    rw [lastMatch_cons]
    cases hr : lastMatch rest path method with
    | some x =>
      simp only [List.mem_cons]
      constructor
      · intro h; exact absurd h (by simp)
      · intro h
        exact absurd (ih.mpr (fun e2 he2 => h e2 (Or.inr he2))) (by simp [hr])
    | none =>
      by_cases hP : e.Path = path ∧ e.Method = method
      · simp [hP, ih.mp hr]
      · simp only [if_neg hP, List.mem_cons]
        constructor
        · rintro - e2 (rfl | he2)
          · exact hP
          · exact (ih.mp hr) e2 he2
        · intro _; trivial

/-- A found last match is a member matching exactly. -/
theorem lastMatch_mem (endpoints : List EndpointConfig) (path method : String)
    (e : EndpointConfig) (h : lastMatch endpoints path method = some e) :
    e ∈ endpoints ∧ e.Path = path ∧ e.Method = method := by
  induction endpoints with
  | nil => simp [lastMatch] at h
  | cons e0 rest ih =>
    rw [lastMatch_cons] at h
    cases hr : lastMatch rest path method with
    | some x =>
      rw [hr] at h
      injection h with h
      subst h
      obtain ⟨hmem, hp2, hm2⟩ := ih hr
      exact ⟨List.mem_cons_of_mem e0 hmem, hp2, hm2⟩
    | none =>
      rw [hr] at h
      by_cases hP : e0.Path = path ∧ e0.Method = method
      · rw [if_pos hP] at h
        injection h with h
        subst h
        exact ⟨List.mem_cons_self e0 rest, hP⟩
      · rw [if_neg hP] at h
        exact absurd h (by simp)

/-- The construction loop succeeds exactly when every target parses. -/
theorem buildRoutes_ok_iff (parse : String → Except String URL) :
    ∀ (endpoints : List EndpointConfig) (routes : RoutesMap),
      (∃ tbl, buildRoutes parse endpoints routes = Except.ok tbl)
        ↔ ∀ e ∈ endpoints, ∃ t, parse e.Target = Except.ok t := by
  intro endpoints
  induction endpoints with
  | nil => intro routes; simp [buildRoutes]
  | cons e rest ih =>
    intro routes
    cases hp : parse e.Target with
    | error msg =>
      simp only [buildRoutes, hp, List.mem_cons]
      constructor
      · rintro ⟨tbl, htbl⟩; exact absurd htbl (by simp)
      · intro h
        obtain ⟨t, ht⟩ := h e (Or.inl rfl)
        rw [hp] at ht; exact absurd ht (by simp)
    | ok t =>
      simp only [buildRoutes, hp, List.mem_cons]
      rw [ih (routes.insert e t)]
      constructor
      · rintro h e2 (rfl | he2)
        · exact ⟨t, hp⟩
        · exact h e2 he2
      · intro h e2 he2; exact h e2 (Or.inr he2)

/-- What the construction loop's final table answers at each slot: the slot
of the last matching endpoint (built from its parsed target), otherwise
whatever the starting table answered. -/
theorem buildRoutes_lookup (parse : String → Except String URL) :
    ∀ (endpoints : List EndpointConfig) (routes tbl : RoutesMap),
      buildRoutes parse endpoints routes = Except.ok tbl →
      ∀ p m,
        (lastMatch endpoints p m = none →
          tbl.lookup p m = routes.lookup p m)
        ∧ (∀ e, lastMatch endpoints p m = some e →
            ∃ t, parse e.Target = Except.ok t
              ∧ tbl.lookup p m = some (mkRoute e t)) := by
  intro endpoints
  induction endpoints with
  | nil =>
    intro routes tbl h p m
    simp only [buildRoutes, Except.ok.injEq] at h
    subst h
    exact ⟨fun _ => rfl, fun e he => by simp [lastMatch] at he⟩
  | cons e rest ih =>
    intro routes tbl h p m
    rw [buildRoutes] at h
    cases hp : parse e.Target with
    | error msg => rw [hp] at h; exact absurd h (by simp)
    | ok t =>
      rw [hp] at h
      have ihres := ih (routes.insert e t) tbl h p m
      rw [lastMatch_cons]
      cases hr : lastMatch rest p m with
      | some x =>
        refine ⟨fun hnone => absurd hnone (by simp), ?_⟩
        intro e2 he2
        injection he2 with he2
        exact he2 ▸ ihres.2 x hr
      | none =>
        have hbase := ihres.1 hr
        rw [RoutesMap.lookup_insert] at hbase
        by_cases hP : e.Path = p ∧ e.Method = m
        · rw [if_pos ⟨hP.1.symm, hP.2.symm⟩] at hbase
          refine ⟨fun hnone => absurd hnone (by simp [if_pos hP]), ?_⟩
          intro e2 he2
          rw [if_pos hP] at he2
          injection he2 with he2
          exact he2 ▸ ⟨t, hp, hbase⟩
        · rw [if_neg (fun hc => hP ⟨hc.1.symm, hc.2.symm⟩)] at hbase
          refine ⟨fun _ => hbase, ?_⟩
          intro e2 he2
          rw [if_neg hP] at he2
          exact absurd he2 (by simp)

/-- Lookup through a `Router` value is lookup in its table. -/
theorem Router.getRoute_eq_lookup (tbl : RoutesMap) (p m : String) :
    Router.GetRoute { Routes := tbl } p m = tbl.lookup p m := rfl

/-- Construction success determines the table. -/
theorem NewRouterWithRegistry_ok (parse : String → Except String URL)
    (endpoints : List EndpointConfig) (r : Router)
    (h : NewRouterWithRegistry parse endpoints = Except.ok r) :
    buildRoutes parse endpoints RoutesMap.empty = Except.ok r.Routes := by
  unfold NewRouterWithRegistry at h
  cases hb : buildRoutes parse endpoints RoutesMap.empty with
  | error msg => rw [hb] at h; exact absurd h (by simp [Except.map])
  | ok tbl =>
    rw [hb] at h
    simp only [Except.map, Except.ok.injEq] at h
    subst h
    rfl

/-! ## Demo endpoints for the router witnesses -/

/-- The parsed form of `http://backend`. -/
def demoURL : URL := ⟨"http", "backend", "", "", "", ""⟩

/-- The parsed form of `http://backend2/v2`. -/
def demoURL2 : URL := ⟨"http", "backend2", "/v2", "", "", ""⟩

/-- A concrete stand-in for `url.Parse` accepting two fixed target strings. -/
def demoParse : String → Except String URL := fun s =>
  if s = "http://backend" then Except.ok demoURL
  else if s = "http://backend2/v2" then Except.ok demoURL2
  else Except.error "invalid URL"

/-- An endpoint whose target `demoParse` accepts. -/
def demoEndpoint : EndpointConfig :=
  { Path := "/a"
    Target := "http://backend"
    Method := "GET"
    Headers := fun _ => []
    AllowedHeaders := []
    Middlewares := [] }

/-- An endpoint whose target `demoParse` rejects. -/
def badEndpoint : EndpointConfig :=
  { Path := "/bad"
    Target := "::notaurl"
    Method := "GET"
    Headers := fun _ => []
    AllowedHeaders := []
    Middlewares := [] }

/-- A second endpoint at the same (path, method) slot as `demoEndpoint`,
with a different target. -/
def dupEndpoint : EndpointConfig :=
  { Path := "/a"
    Target := "http://backend2/v2"
    Method := "GET"
    Headers := fun _ => []
    AllowedHeaders := []
    Middlewares := [] }

/-- C7: router construction is all-or-nothing — if any endpoint's target
fails to parse it returns an error and no router, and if every target
parses it returns a router holding a route at every definition's
(path, method) slot. -/
theorem router_construction_fail_fast (parse : String → Except String URL)
    (endpoints : List EndpointConfig) :
    ((∃ e ∈ endpoints, ∀ t, parse e.Target ≠ Except.ok t) →
      ∃ msg, NewRouterWithRegistry parse endpoints = Except.error msg)
    ∧ ((∀ e ∈ endpoints, ∃ t, parse e.Target = Except.ok t) →
      ∃ r, NewRouterWithRegistry parse endpoints = Except.ok r
        ∧ ∀ e ∈ endpoints, ∃ route, r.GetRoute e.Path e.Method = some route) := by
  constructor
  · rintro ⟨e, he, hbad⟩
    cases hb : buildRoutes parse endpoints RoutesMap.empty with
    | error msg =>
      exact ⟨msg, by simp [NewRouterWithRegistry, hb, Except.map]⟩
    | ok tbl =>
      obtain ⟨t, ht⟩ := (buildRoutes_ok_iff parse endpoints RoutesMap.empty).mp
        ⟨tbl, hb⟩ e he
      exact absurd ht (hbad t)
  · intro hall
    obtain ⟨tbl, hb⟩ :=
      (buildRoutes_ok_iff parse endpoints RoutesMap.empty).mpr hall
    refine ⟨{ Routes := tbl }, by simp [NewRouterWithRegistry, hb, Except.map], ?_⟩
    intro e he
    have hlookup := buildRoutes_lookup parse endpoints RoutesMap.empty tbl hb
      e.Path e.Method
    cases hlast : lastMatch endpoints e.Path e.Method with
    | none =>
      exact absurd ((lastMatch_eq_none_iff endpoints e.Path e.Method).mp hlast
        e he) (by simp)
    | some e2 =>
      obtain ⟨t, -, htbl⟩ := hlookup.2 e2 hlast
      exact ⟨mkRoute e2 t, by rw [Router.getRoute_eq_lookup]; exact htbl⟩

/-- C7 witness: one bad target aborts construction; the good endpoint alone
builds a router with its route present. -/
theorem router_construction_fail_fast_witness :
    (∃ msg, NewRouterWithRegistry demoParse [demoEndpoint, badEndpoint]
        = Except.error msg)
    ∧ (∃ r, NewRouterWithRegistry demoParse [demoEndpoint] = Except.ok r
        ∧ ∀ e ∈ [demoEndpoint], ∃ route,
            r.GetRoute e.Path e.Method = some route) := by
  constructor
  · refine (router_construction_fail_fast demoParse
      [demoEndpoint, badEndpoint]).1 ⟨badEndpoint, by simp, ?_⟩
    intro t ht
    simp [demoParse, badEndpoint] at ht
  · refine (router_construction_fail_fast demoParse [demoEndpoint]).2 ?_
    intro e he
    simp only [List.mem_singleton] at he
    subst he
    exact ⟨demoURL, rfl⟩

/-- C8: for a successfully constructed router, `GetRoute(path, method)`
finds a route exactly when some endpoint definition carries that exact path
string and exact method string (string equality — hence no trailing-slash,
case or method normalization), and the route found is the one configured by
the last such definition, built verbatim from its parsed target. -/
theorem getRoute_exact_match (parse : String → Except String URL)
    (endpoints : List EndpointConfig) (r : Router)
    (hok : NewRouterWithRegistry parse endpoints = Except.ok r)
    (p m : String) :
    (r.GetRoute p m ≠ none ↔ ∃ e ∈ endpoints, e.Path = p ∧ e.Method = m)
    ∧ (∀ e, lastMatch endpoints p m = some e →
        ∃ t, parse e.Target = Except.ok t
          ∧ r.GetRoute p m = some (mkRoute e t)) := by
  have hb := NewRouterWithRegistry_ok parse endpoints r hok
  have hlookup := buildRoutes_lookup parse endpoints RoutesMap.empty r.Routes hb p m
  have hget : r.GetRoute p m = r.Routes.lookup p m := rfl
  constructor
  · constructor
    · intro hne
      cases hlast : lastMatch endpoints p m with
      | none =>
        rw [hget, hlookup.1 hlast] at hne
        exact absurd rfl hne
      | some e =>
        obtain ⟨hmem, hp2, hm2⟩ := lastMatch_mem endpoints p m e hlast
        exact ⟨e, hmem, hp2, hm2⟩
    · rintro ⟨e, he, hp2, hm2⟩
      cases hlast : lastMatch endpoints p m with
      | none =>
        exact absurd ⟨hp2, hm2⟩
          ((lastMatch_eq_none_iff endpoints p m).mp hlast e he)
      | some e2 =>
        obtain ⟨t, -, htbl⟩ := hlookup.2 e2 hlast
        rw [hget, htbl]
        simp
  · intro e hlast
    obtain ⟨t, hp2, htbl⟩ := hlookup.2 e hlast
    exact ⟨t, hp2, by rw [hget]; exact htbl⟩

/-- C8 witness: in a router built from the single `/a`-GET endpoint, the
exact pair is found and the same path with method POST is not. -/
theorem getRoute_exact_match_witness :
    (∃ r, NewRouterWithRegistry demoParse [demoEndpoint] = Except.ok r
      ∧ r.GetRoute "/a" "GET" ≠ none
      ∧ r.GetRoute "/a" "POST" = none) := by
  have hok : NewRouterWithRegistry demoParse [demoEndpoint]
      = Except.ok { Routes := RoutesMap.insert RoutesMap.empty demoEndpoint demoURL } := rfl
  refine ⟨_, hok, ?_, ?_⟩
  · exact (getRoute_exact_match demoParse [demoEndpoint] _ hok "/a" "GET").1.mpr
      ⟨demoEndpoint, by simp, rfl, rfl⟩
  · have hiff :=
      (getRoute_exact_match demoParse [demoEndpoint] _ hok "/a" "POST").1
    by_contra hne
    obtain ⟨e, he, -, hm2⟩ := hiff.mp hne
    simp only [List.mem_singleton] at he
    subst he
    exact absurd hm2 (by decide)

/-- C10: two endpoint definitions sharing the same (path, method) pair do
not make construction fail — it succeeds, the table's slot holds exactly the
route built from the later definition, and (for this two-endpoint input) no
other slot is populated: uniqueness is maintained by silent overwrite. -/
theorem duplicate_endpoint_last_wins (parse : String → Except String URL)
    (e1 e2 : EndpointConfig) (t1 t2 : URL)
    (h1 : parse e1.Target = Except.ok t1) (h2 : parse e2.Target = Except.ok t2)
    (hp : e1.Path = e2.Path) (hm : e1.Method = e2.Method) :
    ∃ r, NewRouterWithRegistry parse [e1, e2] = Except.ok r
      ∧ r.GetRoute e2.Path e2.Method = some (mkRoute e2 t2)
      ∧ ∀ p m, ¬(p = e2.Path ∧ m = e2.Method) → r.GetRoute p m = none := by
  have hb : buildRoutes parse [e1, e2] RoutesMap.empty
      = Except.ok ((RoutesMap.empty.insert e1 t1).insert e2 t2) := by
    simp [buildRoutes, h1, h2]
  refine ⟨{ Routes := (RoutesMap.empty.insert e1 t1).insert e2 t2 },
    by simp [NewRouterWithRegistry, hb, Except.map], ?_, ?_⟩
  · rw [Router.getRoute_eq_lookup, RoutesMap.lookup_insert]
    simp
  · intro p m hne
    rw [Router.getRoute_eq_lookup, RoutesMap.lookup_insert, if_neg hne,
      RoutesMap.lookup_insert, if_neg (fun hc => hne ⟨hp ▸ hc.1, hm ▸ hc.2⟩)]
    rfl

/-- C10 witness: `/a`-GET configured twice; the router is built without
error and serves the route of the second definition (target
`http://backend2/v2`), not the first. -/
theorem duplicate_endpoint_last_wins_witness :
    ∃ r, NewRouterWithRegistry demoParse [demoEndpoint, dupEndpoint]
        = Except.ok r
      ∧ r.GetRoute dupEndpoint.Path dupEndpoint.Method
          = some (mkRoute dupEndpoint demoURL2) := by
  obtain ⟨r, hok, hget, -⟩ := duplicate_endpoint_last_wins demoParse
    demoEndpoint dupEndpoint demoURL demoURL2 rfl rfl rfl rfl
  exact ⟨r, hok, hget⟩

/-! ## Slice-heap lemmas -/

/-- Allocation leaves every previously allocated backing array intact. -/
theorem Mem.contents_alloc_other (s : Mem) (elems : List Middleware)
    (cap : Nat) (sl : GoSlice) (h : sl.arrId ≠ s.nextId) :
    ((s.alloc elems cap).2).contents sl = s.contents sl := by
  simp [Mem.alloc, Mem.contents, h]

/-- Appending through one slice never changes the contents visible through
a slice over a different, previously allocated backing array. -/
theorem Mem.append_contents_other (s : Mem) (sl : GoSlice)
    (xs : List Middleware) (other : GoSlice) (h1 : other.arrId ≠ sl.arrId)
    (h2 : other.arrId ≠ s.nextId) :
    ((s.append sl xs).2).contents other = s.contents other := by
  unfold Mem.append
  by_cases hc : sl.len + xs.length ≤ s.caps sl.arrId
  · simp [hc, Mem.contents, h1]
  · simp only [hc, if_false]
    exact Mem.contents_alloc_other s _ _ other h2

/-- Appending never retires an allocated id. -/
theorem Mem.append_nextId_le (s : Mem) (sl : GoSlice) (xs : List Middleware) :
    s.nextId ≤ ((s.append sl xs).2).nextId := by
  unfold Mem.append
  by_cases hc : sl.len + xs.length ≤ s.caps sl.arrId
  · simp [hc]
  · simp [hc, Mem.alloc]

/-- The slice returned by append sits on the original backing array or on
the freshly allocated one. -/
theorem Mem.append_arrId_cases (s : Mem) (sl : GoSlice)
    (xs : List Middleware) :
    ((s.append sl xs).1).arrId = sl.arrId
    ∨ ((s.append sl xs).1).arrId = s.nextId := by
  unfold Mem.append
  by_cases hc : sl.len + xs.length ≤ s.caps sl.arrId
  · simp [hc]
  · simp [hc, Mem.alloc]

/-- The slice returned by append is well allocated in the resulting heap. -/
theorem Mem.append_arrId_lt (s : Mem) (sl : GoSlice) (xs : List Middleware)
    (h : sl.arrId < s.nextId) :
    ((s.append sl xs).1).arrId < ((s.append sl xs).2).nextId := by
  unfold Mem.append
  by_cases hc : sl.len + xs.length ≤ s.caps sl.arrId
  · simpa [hc] using h
  · simp [hc, Mem.alloc]

/-- What append makes visible through the returned slice: the old visible
elements followed by the appended ones. -/
theorem Mem.append_contents_self (s : Mem) (sl : GoSlice)
    (xs : List Middleware) (hlen : sl.len ≤ (s.arrays sl.arrId).length) :
    ((s.append sl xs).2).contents ((s.append sl xs).1)
      = s.contents sl ++ xs := by
  unfold Mem.append
  by_cases hc : sl.len + xs.length ≤ s.caps sl.arrId
  · have hA : ((s.arrays sl.arrId).take sl.len).length = sl.len := by
      rw [List.length_take]
      exact Nat.min_eq_left hlen
    have hAX : ((s.arrays sl.arrId).take sl.len ++ xs).length
        = sl.len + xs.length := by
      rw [List.length_append, hA]
    simp only [hc, if_true, Mem.contents, writeAt]
    rw [List.take_append_eq_append_take, hAX, Nat.sub_self, List.take_zero,
      List.append_nil, List.take_of_length_le (Nat.le_of_eq hAX)]
  · simp only [hc, if_false, Mem.alloc, Mem.contents]
    simp

/-- Allocation of the fresh chain leaves older backing arrays in place. -/
theorem NewChain_arrays_other (s : Mem) (i : Nat) (h : i ≠ s.nextId) :
    (NewChain s).2.arrays i = s.arrays i := by
  simp [NewChain, Mem.alloc, h]

/-- Allocation of the fresh chain leaves older slices' contents in place. -/
theorem NewChain_contents (s : Mem) (sl : GoSlice) (h : sl.arrId ≠ s.nextId) :
    (NewChain s).2.contents sl = s.contents sl := by
  simp [Mem.contents, NewChain_arrays_other s sl.arrId h]

/-- Unfolding `Chain.Clone` into its two heap steps. -/
theorem Clone_eq (s : Mem) (c : GoSlice) :
    Chain.Clone s c
      = Mem.append (NewChain s).2 (NewChain s).1 ((NewChain s).2.contents c) :=
  rfl

/-- The cloned chain sits on a backing array allocated by the clone. -/
theorem clone_fst_arrId_ge (s : Mem) (c : GoSlice) :
    s.nextId ≤ (Chain.Clone s c).1.arrId := by
  rw [Clone_eq]
  rcases Mem.append_arrId_cases (NewChain s).2 (NewChain s).1
    ((NewChain s).2.contents c) with h | h
  · rw [h]; exact le_rfl
  · rw [h]; exact Nat.le_succ _

/-- Cloning can only allocate. -/
theorem clone_snd_nextId (s : Mem) (c : GoSlice) :
    s.nextId + 1 ≤ (Chain.Clone s c).2.nextId := by
  rw [Clone_eq]
  exact Mem.append_nextId_le (NewChain s).2 _ _

/-- The cloned chain is well allocated in the resulting heap. -/
theorem clone_fst_lt (s : Mem) (c : GoSlice) :
    (Chain.Clone s c).1.arrId < (Chain.Clone s c).2.nextId := by
  rw [Clone_eq]
  exact Mem.append_arrId_lt _ _ _ (Nat.lt_succ_self s.nextId)

/-- The two-middleware trace chain `[traceMiddleware a, traceMiddleware b]`,
built with `NewChain` and two `Add`s in the empty heap — the literal
order-recording scenario. -/
def tracePair (a b : String) : GoSlice × Mem :=
  let c0 := NewChain Mem.initial
  let c1 := Chain.Add c0.2 c0.1 (traceMiddleware a)
  Chain.Add c1.2 c1.1 (traceMiddleware b)

/-- C4: `Then` is the reverse-order wrap loop, i.e. the nested composition
`m1.Wrap(m2.Wrap(… mn.Wrap(final) …))` (a right fold over the middleware
list), the empty chain returns the final handler itself, an absent final
handler is replaced by `http.DefaultServeMux`, and on the literal
order-recording scenario with `A` added before `B` the observed event order
is `A`-pre, `B`-pre, final, `B`-post, `A`-post. -/
theorem chain_then_composition :
    (∀ (s : Mem) (c : GoSlice) (h : Handler),
      Chain.Then s c (some h)
        = (Mem.contents s c).foldr (fun m acc => m acc) h)
    ∧ (∀ (s : Mem) (c : GoSlice) (h : Handler), Mem.contents s c = [] →
      Chain.Then s c (some h) = h)
    ∧ (∀ (s : Mem) (c : GoSlice),
      Chain.Then s c none = Chain.Then s c (some defaultServeMux))
    ∧ (∀ (a b : String) (t : List String),
      Chain.Then (tracePair a b).2 (tracePair a b).1 (some traceFinal) t
        = t ++ [a ++ "-before", b ++ "-before", "final",
            b ++ "-after", a ++ "-after"]) := by
  refine ⟨?_, ?_, ?_, ?_⟩
  · intro s c h
    unfold Chain.Then
    exact List.foldl_reverse _ _ _
  · intro s c h hc
    unfold Chain.Then
    rw [hc]
    rfl
  · intro s c
    rfl
  · intro a b t
    have hc : Mem.contents (tracePair a b).2 (tracePair a b).1
        = [traceMiddleware a, traceMiddleware b] := rfl
    unfold Chain.Then
    rw [hc]
    simp [traceMiddleware, traceFinal]

/-- C4 witness: an empty chain collapses to the final handler itself, and
the `A`-then-`B` chain records the stack ordering on the empty trace. -/
theorem chain_then_composition_witness :
    Chain.Then (NewChain Mem.initial).2 (NewChain Mem.initial).1
        (some traceFinal) = traceFinal
    ∧ Chain.Then (tracePair "A" "B").2 (tracePair "A" "B").1
        (some traceFinal) []
        = ["A-before", "B-before", "final", "B-after", "A-after"] := by
  constructor
  · exact chain_then_composition.2.1 (NewChain Mem.initial).2
      (NewChain Mem.initial).1 traceFinal rfl
  · exact chain_then_composition.2.2.2 "A" "B" []

/-- C5: `Clone` returns a chain whose middleware list equals the original's
at the moment of cloning, held in independent storage: adding to the clone
leaves the original's list (and hence the original's `Then` composition for
every final handler) unchanged, and adding to the original leaves the
clone's list unchanged. -/
theorem chain_clone_independent (s : Mem) (c : GoSlice) (m : Middleware)
    (harr : c.arrId < s.nextId) :
    Mem.contents (Chain.Clone s c).2 (Chain.Clone s c).1 = Mem.contents s c
    ∧ Mem.contents (Chain.Clone s c).2 c = Mem.contents s c
    ∧ Mem.contents
        (Chain.Add (Chain.Clone s c).2 (Chain.Clone s c).1 m).2 c
        = Mem.contents (Chain.Clone s c).2 c
    ∧ Mem.contents (Chain.Add (Chain.Clone s c).2 c m).2 (Chain.Clone s c).1
        = Mem.contents (Chain.Clone s c).2 (Chain.Clone s c).1
    ∧ (∀ h : Handler,
        Chain.Then (Chain.Add (Chain.Clone s c).2 (Chain.Clone s c).1 m).2 c
          (some h) = Chain.Then s c (some h)) := by
  have hcne : c.arrId ≠ s.nextId := Nat.ne_of_lt harr
  have h1 : Mem.contents (Chain.Clone s c).2 (Chain.Clone s c).1
      = Mem.contents s c := by
    rw [Clone_eq, Mem.append_contents_self (NewChain s).2 (NewChain s).1
      ((NewChain s).2.contents c) (Nat.zero_le _),
      NewChain_contents s c hcne]
    have hnil : (NewChain s).2.contents (NewChain s).1 = [] := rfl
    rw [hnil, List.nil_append]
  have h2 : Mem.contents (Chain.Clone s c).2 c = Mem.contents s c := by
    rw [Clone_eq, Mem.append_contents_other (NewChain s).2 (NewChain s).1
      ((NewChain s).2.contents c) c hcne
      (Nat.ne_of_lt (Nat.lt_succ_of_lt harr))]
    exact NewChain_contents s c hcne
  have hclge : s.nextId ≤ (Chain.Clone s c).1.arrId := clone_fst_arrId_ge s c
  have hc_ne_cl : c.arrId ≠ (Chain.Clone s c).1.arrId :=
    Nat.ne_of_lt (Nat.lt_of_lt_of_le harr hclge)
  have hc_lt_next : c.arrId < (Chain.Clone s c).2.nextId :=
    Nat.lt_of_lt_of_le (Nat.lt_succ_of_lt harr) (clone_snd_nextId s c)
  have hcl_lt_next : (Chain.Clone s c).1.arrId < (Chain.Clone s c).2.nextId :=
    clone_fst_lt s c
  have h3 : Mem.contents
      (Chain.Add (Chain.Clone s c).2 (Chain.Clone s c).1 m).2 c
      = Mem.contents (Chain.Clone s c).2 c :=
    Mem.append_contents_other (Chain.Clone s c).2 (Chain.Clone s c).1 [m] c
      hc_ne_cl (Nat.ne_of_lt hc_lt_next)
  have h4 : Mem.contents (Chain.Add (Chain.Clone s c).2 c m).2
      (Chain.Clone s c).1
      = Mem.contents (Chain.Clone s c).2 (Chain.Clone s c).1 :=
    Mem.append_contents_other (Chain.Clone s c).2 c [m] (Chain.Clone s c).1
      (Ne.symm hc_ne_cl) (Nat.ne_of_lt hcl_lt_next)
  refine ⟨h1, h2, h3, h4, fun h => ?_⟩
  unfold Chain.Then
  rw [h3, h2]

/-- C5 witness: cloning the concrete two-middleware chain preserves its
middleware list. -/
theorem chain_clone_independent_witness :
    Mem.contents (Chain.Clone (tracePair "A" "B").2 (tracePair "A" "B").1).2
        (Chain.Clone (tracePair "A" "B").2 (tracePair "A" "B").1).1
      = Mem.contents (tracePair "A" "B").2 (tracePair "A" "B").1 :=
  (chain_clone_independent (tracePair "A" "B").2 (tracePair "A" "B").1
    (traceMiddleware "C") (by decide)).1

end Heimdall
